import Mathlib

/-!
Shallow embedding of the caolo-entities archetype storage core
(`src/db.rs`, `src/query_set.rs`, `src/systems.rs`) together with the
parts of the crate that the storage layer uses but whose sources are not
in this tree (`PageTable`, `hash_ty`, the `QueryFragment` access-set
functions); those are modelled from the specification and marked as such.

Component types and entity ids are represented by natural numbers
(standing for Rust `TypeId` and `EntityId`); every component column holds
values of a single universal value type `V` (the Rust code stores one
concrete `T` per type-erased column and never mixes columns, so a common
value domain is faithful).  The `rows` counter is a `u32` in the source,
so all arithmetic on it is taken modulo `2 ^ 32`.
-/

/-- Size of the `u32` row-counter space. -/
def u32Mod : Nat := 4294967296

/-- The `TypeId` of the Rust unit type `()`, used by `ArchetypeStorage::empty`. -/
def unitTypeId : Nat := 0

/-- Modelled from the spec: `PageTable<T>` is a sparse map from `u32`
row-index to `T` with `insert`, `remove(row) -> Option<T>` (no-op when the
row is absent), `get`, and iteration in ascending row order.  It is
represented as an association list kept sorted by strictly increasing row
index. -/
structure PageTable (T : Type) where
  entries : List (Nat × T)
deriving DecidableEq

namespace PageTable

/-- Modelled from the spec: the empty table (`PageTable::default` /
`PageTable::new`). -/
def new (T : Type) : PageTable T := ⟨[]⟩

/-- Modelled from the spec: sorted insertion; an existing value at the row
is replaced. -/
def insertGo {T : Type} (r : Nat) (v : T) : List (Nat × T) → List (Nat × T)
  | [] => [(r, v)]
  | (k, w) :: rest =>
    if r < k then (r, v) :: (k, w) :: rest
    else if r = k then (r, v) :: rest
    else (k, w) :: insertGo r v rest

/-- Modelled from the spec: `PageTable::insert(row, v)`. -/
def insert {T : Type} (t : PageTable T) (r : Nat) (v : T) : PageTable T :=
  ⟨insertGo r v t.entries⟩

/-- Modelled from the spec: `PageTable::remove(row)` returns the removed
value (if any) and the table without that row. -/
def removeGo {T : Type} (r : Nat) : List (Nat × T) → Option T × List (Nat × T)
  | [] => (none, [])
  | (k, w) :: rest =>
    if k = r then (some w, rest)
    else
      let p := removeGo r rest
      (p.1, (k, w) :: p.2)

/-- Modelled from the spec: `PageTable::remove(row)`. -/
def remove {T : Type} (t : PageTable T) (r : Nat) : Option T × PageTable T :=
  let p := removeGo r t.entries
  (p.1, ⟨p.2⟩)

/-- Modelled from the spec: `PageTable::get(row)`. -/
def get {T : Type} (t : PageTable T) (r : Nat) : Option T :=
  go t.entries
where
  go : List (Nat × T) → Option T
    | [] => none
    | (k, w) :: rest => if k = r then some w else go rest

/-- Number of live entries of the table. -/
def size {T : Type} (t : PageTable T) : Nat := t.entries.length

end PageTable

/-- Lookup in an association list, first occurrence (the model of
`HashMap::get`). -/
def lookupKey {α : Type} (t : Nat) : List (Nat × α) → Option α
  | [] => none
  | (k, c) :: rest => if k = t then some c else lookupKey t rest

/-- Membership test for an association list (the model of
`HashMap::contains_key`). -/
def containsKey {α : Type} (t : Nat) (l : List (Nat × α)) : Bool :=
  (lookupKey t l).isSome

/-- Apply a key-dependent function to every value of an association list;
all in-place `HashMap` value updates are instances of this. -/
def mapVals {α β : Type} (f : Nat → α → β) (l : List (Nat × α)) : List (Nat × β) :=
  l.map fun kc => (kc.1, f kc.1 kc.2)

/-- Update the value stored at one key, leaving other keys alone (the
model of `HashMap::get_mut` followed by a mutation). -/
def updateKey {α : Type} (t : Nat) (g : α → α) (l : List (Nat × α)) : List (Nat × α) :=
  mapVals (fun k c => if k = t then g c else c) l

/-- Remove the entry of one key (the model of `HashMap::remove`). -/
def eraseKey {α : Type} (t : Nat) : List (Nat × α) → List (Nat × α)
  | [] => []
  | (k, c) :: rest => if k = t then rest else (k, c) :: eraseKey t rest

/-- `ArchetypeStorage` from `src/db.rs`: the archetype-set hash `ty`, the
`u32` row counter, the parallel entity-id column, and one type-erased
component column per component type, keyed by `TypeId`. -/
structure ArchetypeStorage (V : Type) where
  ty : Nat
  rows : Nat
  entities : PageTable Nat
  components : List (Nat × PageTable V)
deriving DecidableEq

namespace ArchetypeStorage

variable {V : Type}

/-- The component-type keys of the storage. -/
def keys (s : ArchetypeStorage V) : List Nat := s.components.map Prod.fst

/-- `ArchetypeStorage::empty` (`db.rs:42`): hash of `()`, zero rows, and a
dummy `()` column.  `hashTy` models the crate's `hash_ty` per-type hash
function, which is not among the given sources. -/
def empty (hashTy : Nat → Nat) : ArchetypeStorage V :=
  { ty := hashTy unitTypeId
    rows := 0
    entities := PageTable.new Nat
    components := [(unitTypeId, PageTable.new V)] }

/-- `ArchetypeStorage::len` (`db.rs:62`). -/
def len (s : ArchetypeStorage V) : Nat := s.rows

/-- `ArchetypeStorage::remove` (`db.rs:70`): removes the row from every
component column and the entities column, then decrements the `u32` row
counter (wrapping at zero). -/
def remove (s : ArchetypeStorage V) (row_index : Nat) : ArchetypeStorage V :=
  { s with
    components := mapVals (fun _ col => (col.remove row_index).2) s.components
    entities := (s.entities.remove row_index).2
    rows := (s.rows + (u32Mod - 1)) % u32Mod }

/-- `ArchetypeStorage::insert_entity` (`db.rs:78`): allocates the row at
the current value of `rows`, records the id there, increments `rows`
(a `u32`), and returns the row. -/
def insert_entity (s : ArchetypeStorage V) (id : Nat) : Nat × ArchetypeStorage V :=
  let res := s.rows
  (res,
    { s with
      entities := s.entities.insert res id
      rows := (s.rows + 1) % u32Mod })

/-- `ArchetypeStorage::contains_column` (`db.rs:109`). -/
def contains_column (s : ArchetypeStorage V) (t : Nat) : Bool :=
  containsKey t s.components

/-- `ArchetypeStorage::extended_hash` (`db.rs:114`). -/
def extended_hash (hashTy : Nat → Nat) (s : ArchetypeStorage V) (t : Nat) : Nat :=
  s.ty ^^^ hashTy t

/-- `ArchetypeStorage::clone_empty` (`db.rs:141`): same `ty`, same column
set, no rows, every column empty. -/
def clone_empty (s : ArchetypeStorage V) : ArchetypeStorage V :=
  { ty := s.ty
    rows := 0
    entities := PageTable.new Nat
    components := mapVals (fun _ _ => PageTable.new V) s.components }

/-- `ArchetypeStorage::extend_with_column` (`db.rs:118`).  The source
asserts that the column is absent; the panic is modelled as `none`. -/
def extend_with_column (hashTy : Nat → Nat) (s : ArchetypeStorage V) (t : Nat) :
    Option (ArchetypeStorage V) :=
  if s.contains_column t then none
  else
    let result := s.clone_empty
    some
      { result with
        ty := s.extended_hash hashTy t
        components := (t, PageTable.new V) :: result.components }

/-- `ArchetypeStorage::reduce_with_column` (`db.rs:131`).  The source
asserts that the column is present; the panic is modelled as `none`. -/
def reduce_with_column (hashTy : Nat → Nat) (s : ArchetypeStorage V) (t : Nat) :
    Option (ArchetypeStorage V) :=
  if s.contains_column t then
    let result := s.clone_empty
    some
      { result with
        ty := s.extended_hash hashTy t
        components := eraseKey t result.components }
  else none

/-- `ArchetypeStorage::set_component` (`db.rs:98`): records the id in the
entities column and writes the value into the column of `t`; the
`expect` panic on a missing column is modelled as `none`. -/
def set_component (s : ArchetypeStorage V) (t : Nat) (id : Nat) (row_index : Nat) (v : V) :
    Option (ArchetypeStorage V) :=
  if s.contains_column t then
    some
      { s with
        entities := s.entities.insert row_index id
        components := updateKey t (fun col => col.insert row_index v) s.components }
  else none

/-- `ArchetypeStorage::get_component` (`db.rs:154`). -/
def get_component (s : ArchetypeStorage V) (t : Nat) (row : Nat) : Option V :=
  (lookupKey t s.components).bind fun col => col.get row

/-- The loop body of `ArchetypeStorage::move_entity` (`db.rs:90`): for
every column of `src`, when `dst` carries the same component type, the
vtable entry `move_row` (`db.rs:221`) removes the value at `index` from
the source column and inserts it into the destination column at that same
`index`; columns absent from `dst` are left untouched. -/
def moveRowsGo (index : Nat) :
    List (Nat × PageTable V) → List (Nat × PageTable V) →
    List (Nat × PageTable V) × List (Nat × PageTable V)
  | [], dcs => ([], dcs)
  | (t, col) :: rest, dcs =>
    match lookupKey t dcs with
    | some _ =>
      let p := col.remove index
      let dcs' :=
        match p.1 with
        | some v => updateKey t (fun dcol => dcol.insert index v) dcs
        | none => dcs
      let q := moveRowsGo index rest dcs'
      ((t, p.2) :: q.1, q.2)
    | none =>
      let q := moveRowsGo index rest dcs
      ((t, col) :: q.1, q.2)

/-- `ArchetypeStorage::move_entity` (`db.rs:86`): decrements the source
row counter, removes the entity id at `index` (the `unwrap` panic on a
missing entity is modelled as `none`), inserts it into `dst` obtaining
the new row, then runs `move_row` on every column pair.  Returns the new
row together with the updated source and destination storages. -/
def move_entity (s : ArchetypeStorage V) (dst : ArchetypeStorage V) (index : Nat) :
    Option (Nat × ArchetypeStorage V × ArchetypeStorage V) :=
  let rows' := (s.rows + (u32Mod - 1)) % u32Mod
  match s.entities.remove index with
  | (none, _) => none
  | (some entity_id, ents) =>
    let p := dst.insert_entity entity_id
    let q := moveRowsGo index s.components p.2.components
    some
      (p.1,
        { s with rows := rows', entities := ents, components := q.1 },
        { p.2 with components := q.2 })

/-- The `Queryable::iter` impl for `ArchetypeStorage` (`db.rs:359`): the
sequence of `(row, value)` pairs produced by iterating the column of `t`;
when the archetype has no such column the inner iterator is `None` and
the iteration is empty. -/
def iterColumn (s : ArchetypeStorage V) (t : Nat) : List (Nat × V) :=
  match lookupKey t s.components with
  | some col => col.entries
  | none => []

/-- The `Queryable::iter_mut` impl for `ArchetypeStorage` (`db.rs:374`):
same traversal as `iterColumn`, over `as_inner_mut`. -/
def iterColumnMut (s : ArchetypeStorage V) (t : Nat) : List (Nat × V) :=
  match lookupKey t s.components with
  | some col => col.entries
  | none => []

end ArchetypeStorage

/-! Operation sequences over one archetype storage, for the row-index
claims: only `insert_entity` and `remove` act on rows. -/

/-- One row-level operation on an archetype storage. -/
inductive RowOp where
  | insert (id : Nat)
  | remove (r : Nat)
deriving DecidableEq

/-- Run a sequence of row operations, collecting the row indices returned
by the `insert_entity` calls in order. -/
def runOps {V : Type} : ArchetypeStorage V → List RowOp → ArchetypeStorage V × List Nat
  | s, [] => (s, [])
  | s, RowOp.insert id :: rest =>
    let p := s.insert_entity id
    let q := runOps p.2 rest
    (q.1, p.1 :: q.2)
  | s, RowOp.remove r :: rest => runOps (s.remove r) rest

/-! The query access-set machinery.  `QuerySet`'s `components_mut` and
`components_const` are translated from `src/query_set.rs`; the
per-query `QueryFragment::types_mut` / `types_const` they call live in
the crate's `query` module, which is not among the given sources, and are
modelled from the spec. -/

/-- An inner query of a `QuerySet`, characterised by the component types
it reads and the component types it writes. -/
structure QueryAccess where
  reads : List Nat
  writes : List Nat
deriving DecidableEq

/-- Insertion into a model `HashSet<TypeId>`. -/
def insertType (s : List Nat) (t : Nat) : List Nat :=
  if t ∈ s then s else t :: s

/-- Modelled from the spec: the body of `QueryFragment::types_mut`, which
inserts each written component type into the set and panics (modelled as
`none`) when the type is already present. -/
def typesMutGo : List Nat → List Nat → Option (List Nat)
  | [], s => some s
  | t :: ts, s => if t ∈ s then none else typesMutGo ts (t :: s)

/-- Modelled from the spec: `QueryFragment::types_mut` for one query. -/
def typesMut (q : QueryAccess) (s : List Nat) : Option (List Nat) :=
  typesMutGo q.writes s

/-- Modelled from the spec: `QueryFragment::types_const` for one query
inserts each read component type into the set (no panic on duplicates). -/
def typesConst (q : QueryAccess) (s : List Nat) : List Nat :=
  q.reads.foldl insertType s

/-- `set.extend(other.into_iter())` on the model sets. -/
def extendSet (acc iso : List Nat) : List Nat :=
  iso.foldl insertType acc

/-- The first block of `QuerySet::components_mut` (`query_set.rs:51`):
each inner query's `types_mut` is run on its own clone of the incoming
set; a panic in any of them propagates. -/
def mapTypesMut (s : List Nat) : List QueryAccess → Option (List (List Nat))
  | [] => some []
  | q :: qs =>
    match typesMut q s, mapTypesMut s qs with
    | some iso, some rest => some (iso :: rest)
    | _, _ => none

/-- `QuerySet::components_mut` (`query_set.rs:51`): validate every inner
query in isolation against a clone of the incoming set, then extend the
incoming set with each isolated result. -/
def querySetComponentsMut (qs : List QueryAccess) (s : List Nat) : Option (List Nat) :=
  (mapTypesMut s qs).map fun isos => isos.foldl extendSet s

/-- `QuerySet::components_const` (`query_set.rs:65`): every inner query's
`types_const` runs on the shared set in turn. -/
def querySetComponentsConst (qs : List QueryAccess) (s : List Nat) : List Nat :=
  qs.foldl (fun acc q => typesConst q acc) s

/-- Key uniqueness of the components map: in the source it is a
`HashMap<TypeId, ErasedPageTable>`, whose keys are distinct by
construction of the type. -/
def KeysWF {V : Type} (s : ArchetypeStorage V) : Prop :=
  s.keys.Nodup

instance {V : Type} (s : ArchetypeStorage V) : Decidable (KeysWF s) :=
  inferInstanceAs (Decidable (List.Nodup _))

/-- The XOR of the per-type hashes of a list of component type keys; the
right-hand side of the spec's hash-identity invariant I2. -/
def xorHashes (hashTy : Nat → Nat) : List Nat → Nat
  | [] => 0
  | k :: rest => hashTy k ^^^ xorHashes hashTy rest

/-- The storages reachable from `ArchetypeStorage::empty` through the
public mutating operations of `src/db.rs` (panicking calls contribute
nothing). -/
inductive Reachable (V : Type) (hashTy : Nat → Nat) : ArchetypeStorage V → Prop where
  | empty : Reachable V hashTy (ArchetypeStorage.empty hashTy)
  | extend {s s' : ArchetypeStorage V} {t : Nat} :
      Reachable V hashTy s → s.extend_with_column hashTy t = some s' →
      Reachable V hashTy s'
  | reduce {s s' : ArchetypeStorage V} {t : Nat} :
      Reachable V hashTy s → s.reduce_with_column hashTy t = some s' →
      Reachable V hashTy s'
  | cloneEmpty {s : ArchetypeStorage V} :
      Reachable V hashTy s → Reachable V hashTy s.clone_empty
  | insertEnt {s : ArchetypeStorage V} {id : Nat} :
      Reachable V hashTy s → Reachable V hashTy (s.insert_entity id).2
  | setComp {s s' : ArchetypeStorage V} {t id row : Nat} {v : V} :
      Reachable V hashTy s → s.set_component t id row v = some s' →
      Reachable V hashTy s'
  | removeRow {s : ArchetypeStorage V} {r : Nat} :
      Reachable V hashTy s → Reachable V hashTy (s.remove r)
  | moveSrc {s d : ArchetypeStorage V} {r : Nat}
      {out : Nat × ArchetypeStorage V × ArchetypeStorage V} :
      Reachable V hashTy s → Reachable V hashTy d →
      s.move_entity d r = some out → Reachable V hashTy out.2.1
  | moveDst {s d : ArchetypeStorage V} {r : Nat}
      {out : Nat × ArchetypeStorage V × ArchetypeStorage V} :
      Reachable V hashTy s → Reachable V hashTy d →
      s.move_entity d r = some out → Reachable V hashTy out.2.2

/-! Concrete inputs used by the counterexamples and witnesses. -/

/-- A storage carrying component types 1 and 2 with two live rows:
entities 10 and 11 at rows 0 and 1, with component values 100/101
(type 1) and 200/201 (type 2). -/
def srcEx : ArchetypeStorage Nat :=
  { ty := 99
    rows := 2
    entities := ⟨[(0, 10), (1, 11)]⟩
    components := [(1, ⟨[(0, 100), (1, 101)]⟩), (2, ⟨[(0, 200), (1, 201)]⟩)] }

/-- An empty destination storage carrying only component type 1 (the
shape produced by reducing `srcEx` by type 2). -/
def dstEx : ArchetypeStorage Nat :=
  { ty := 98
    rows := 0
    entities := ⟨[]⟩
    components := [(1, ⟨[]⟩)] }

/-- The storage obtained by removing a row from the fresh empty
archetype: the `u32` row counter has wrapped to `2 ^ 32 - 1`. -/
def underflowedEx : ArchetypeStorage Nat :=
  (ArchetypeStorage.empty (fun t => t)).remove 0

/-- Two inner queries of a query set, both writing component type 5. -/
def qsEx : List QueryAccess :=
  [{ reads := [7], writes := [5] }, { reads := [], writes := [5] }]

/-! Helper lemmas on the modelled containers. -/

theorem PageTable.get_insertGo {T : Type} (r : Nat) (v : T) (l : List (Nat × T)) :
    PageTable.get.go r (PageTable.insertGo r v l) = some v := by
  induction l with
  | nil => simp [PageTable.insertGo, PageTable.get.go]
  | cons kw rest ih =>
    obtain ⟨k, w⟩ := kw
    by_cases h1 : r < k
    · simp [PageTable.insertGo, PageTable.get.go, h1]
    · by_cases h2 : r = k
      · simp [PageTable.insertGo, PageTable.get.go, h1, h2]
      · have hk : ¬ k = r := fun h => h2 h.symm
        simp [PageTable.insertGo, PageTable.get.go, h1, h2, hk, ih]

theorem PageTable.get_insert {T : Type} (t : PageTable T) (r : Nat) (v : T) :
    (t.insert r v).get r = some v := by
  unfold PageTable.insert PageTable.get
  exact PageTable.get_insertGo r v t.entries

theorem PageTable.removeGo_of_get_none {T : Type} (r : Nat) (l : List (Nat × T))
    (h : PageTable.get.go r l = none) : PageTable.removeGo r l = (none, l) := by
  induction l with
  | nil => simp [PageTable.removeGo]
  | cons kw rest ih =>
    obtain ⟨k, w⟩ := kw
    by_cases hk : k = r
    · simp [PageTable.get.go, hk] at h
    · simp [PageTable.get.go, hk] at h
      simp [PageTable.removeGo, hk, ih h]

theorem PageTable.remove_of_get_none {T : Type} (t : PageTable T) (r : Nat)
    (h : t.get r = none) : t.remove r = (none, t) := by
  obtain ⟨l⟩ := t
  unfold PageTable.get at h
  simp only [PageTable.remove, PageTable.removeGo_of_get_none r l h]

theorem lookupKey_mapVals {α β : Type} (f : Nat → α → β) (t : Nat) (l : List (Nat × α)) :
    lookupKey t (mapVals f l) = (lookupKey t l).map (f t) := by
  induction l with
  | nil => simp [lookupKey, mapVals]
  | cons kc rest ih =>
    obtain ⟨k, c⟩ := kc
    by_cases hk : k = t
    · subst hk; simp [lookupKey, mapVals]
    · simp [lookupKey, mapVals, hk] at ih ⊢
      exact ih

theorem keys_mapVals {α β : Type} (f : Nat → α → β) (l : List (Nat × α)) :
    (mapVals f l).map Prod.fst = l.map Prod.fst := by
  induction l with
  | nil => rfl
  | cons kc rest ih => simp only [mapVals, List.map_cons] at ih ⊢; rw [ih]

theorem containsKey_iff_mem {α : Type} (t : Nat) (l : List (Nat × α)) :
    containsKey t l = true ↔ t ∈ l.map Prod.fst := by
  induction l with
  | nil => simp [containsKey, lookupKey]
  | cons kc rest ih =>
    obtain ⟨k, c⟩ := kc
    by_cases hk : k = t
    · subst hk; simp [containsKey, lookupKey]
    · have hk' : ¬ t = k := fun h => hk h.symm
      simp [containsKey, lookupKey, hk, hk'] at ih ⊢
      exact ih

theorem keys_eraseKey {α : Type} (t : Nat) (l : List (Nat × α)) :
    (eraseKey t l).map Prod.fst = (l.map Prod.fst).erase t := by
  induction l with
  | nil => rfl
  | cons kc rest ih =>
    obtain ⟨k, c⟩ := kc
    by_cases hk : k = t
    · subst hk; simp [eraseKey, List.erase_cons]
    · simp [eraseKey, List.erase_cons, hk, ih]

theorem xorHashes_erase (hashTy : Nat → Nat) (t : Nat) (l : List Nat) (h : t ∈ l) :
    xorHashes hashTy (l.erase t) = xorHashes hashTy l ^^^ hashTy t := by
  induction l with
  | nil => cases h
  | cons k rest ih =>
    by_cases hk : k = t
    · subst hk
      simp only [List.erase_cons_head, xorHashes]
      rw [Nat.xor_comm (hashTy k), Nat.xor_assoc, Nat.xor_self, Nat.xor_zero]
    · have ht : t ∈ rest := by
        rcases List.mem_cons.mp h with h1 | h1
        · exact absurd h1.symm hk
        · exact h1
      have hne : ¬ (k == t) = true := by simp [hk]
      simp only [List.erase_cons, if_neg hne, xorHashes, ih ht]
      rw [Nat.xor_assoc]

/-! Helper lemmas on the archetype operations. -/

namespace ArchetypeStorage

variable {V : Type}

theorem keys_clone_empty (s : ArchetypeStorage V) : s.clone_empty.keys = s.keys := by
  simp [clone_empty, keys, keys_mapVals]

theorem keys_remove (s : ArchetypeStorage V) (r : Nat) : (s.remove r).keys = s.keys := by
  simp [remove, keys, keys_mapVals]

theorem keys_insert_entity (s : ArchetypeStorage V) (id : Nat) :
    (s.insert_entity id).2.keys = s.keys := rfl

theorem contains_iff_mem_keys (s : ArchetypeStorage V) (t : Nat) :
    s.contains_column t = true ↔ t ∈ s.keys :=
  containsKey_iff_mem t s.components

theorem extend_eq_none_iff (hashTy : Nat → Nat) (s : ArchetypeStorage V) (t : Nat) :
    s.extend_with_column hashTy t = none ↔ s.contains_column t = true := by
  unfold extend_with_column
  by_cases h : s.contains_column t = true <;> simp [h]

theorem extend_eq_some (hashTy : Nat → Nat) (s s' : ArchetypeStorage V) (t : Nat)
    (h : s.extend_with_column hashTy t = some s') :
    s'.ty = s.ty ^^^ hashTy t ∧ s'.keys = t :: s.keys ∧
      s.contains_column t = false := by
  unfold extend_with_column at h
  by_cases hc : s.contains_column t = true
  · simp [hc] at h
  · simp only [hc, if_neg] at h
    simp only [Bool.not_eq_true] at hc
    cases h
    refine ⟨rfl, ?_, hc⟩
    simp only [keys, List.map_cons]
    exact congrArg (t :: ·) (keys_clone_empty s)

theorem reduce_eq_none_iff (hashTy : Nat → Nat) (s : ArchetypeStorage V) (t : Nat) :
    s.reduce_with_column hashTy t = none ↔ s.contains_column t = false := by
  unfold reduce_with_column
  by_cases h : s.contains_column t = true
  · simp [h]
  · simp only [Bool.not_eq_true] at h
    simp [h]

theorem reduce_eq_some (hashTy : Nat → Nat) (s s' : ArchetypeStorage V) (t : Nat)
    (h : s.reduce_with_column hashTy t = some s') :
    s'.ty = s.ty ^^^ hashTy t ∧ s'.keys = s.keys.erase t ∧
      s.contains_column t = true := by
  unfold reduce_with_column at h
  by_cases hc : s.contains_column t = true
  · simp only [hc, if_pos] at h
    cases h
    refine ⟨rfl, ?_, hc⟩
    simp only [keys]
    rw [keys_eraseKey]
    exact congrArg (List.erase · t) (keys_clone_empty s)
  · simp [hc] at h

theorem set_component_eq_some (s s' : ArchetypeStorage V) (t id row : Nat) (v : V)
    (h : s.set_component t id row v = some s') :
    s'.keys = s.keys ∧ s'.ty = s.ty := by
  unfold set_component at h
  by_cases hc : s.contains_column t = true
  · simp only [hc, if_pos] at h
    cases h
    constructor
    · simp only [keys]
      unfold updateKey
      exact keys_mapVals _ _
    · rfl
  · simp [hc] at h

theorem moveRowsGo_keys (index : Nat) (scs dcs : List (Nat × PageTable V)) :
    ((moveRowsGo index scs dcs).1).map Prod.fst = scs.map Prod.fst ∧
      ((moveRowsGo index scs dcs).2).map Prod.fst = dcs.map Prod.fst := by
  induction scs generalizing dcs with
  | nil => simp [moveRowsGo]
  | cons tc rest ih =>
    obtain ⟨t, col⟩ := tc
    unfold moveRowsGo
    cases hl : lookupKey t dcs with
    | none =>
      simp only [hl, List.map_cons]
      have h1 := ih dcs
      exact ⟨by rw [h1.1], h1.2⟩
    | some dcol =>
      simp only [hl]
      cases hv : (PageTable.remove col index).1 with
      | none =>
        simp only [hv, List.map_cons]
        have h1 := ih dcs
        exact ⟨by rw [h1.1], h1.2⟩
      | some v =>
        simp only [hv, List.map_cons]
        have h1 := ih (updateKey t (fun dcol => dcol.insert index v) dcs)
        refine ⟨by rw [h1.1], ?_⟩
        rw [h1.2]
        unfold updateKey
        exact keys_mapVals _ _

theorem move_entity_eq (s dst : ArchetypeStorage V) (index : Nat) (eid : Nat)
    (ents : PageTable Nat) (h : s.entities.remove index = (some eid, ents)) :
    s.move_entity dst index =
      some ((dst.insert_entity eid).1,
        { s with
          rows := (s.rows + (u32Mod - 1)) % u32Mod
          entities := ents
          components :=
            (moveRowsGo index s.components (dst.insert_entity eid).2.components).1 },
        { (dst.insert_entity eid).2 with
          components :=
            (moveRowsGo index s.components (dst.insert_entity eid).2.components).2 }) := by
  unfold move_entity
  rw [h]

theorem move_entity_eq_none (s dst : ArchetypeStorage V) (index : Nat)
    (ents : PageTable Nat) (h : s.entities.remove index = (none, ents)) :
    s.move_entity dst index = none := by
  unfold move_entity
  rw [h]

set_option maxHeartbeats 400000 in
theorem move_entity_keys_ty (s dst : ArchetypeStorage V) (index : Nat)
    (out : Nat × ArchetypeStorage V × ArchetypeStorage V)
    (h : s.move_entity dst index = some out) :
    out.2.1.keys = s.keys ∧ out.2.1.ty = s.ty ∧
      out.2.2.keys = dst.keys ∧ out.2.2.ty = dst.ty := by
  rcases he : s.entities.remove index with ⟨o, ents⟩
  cases o with
  | none =>
    rw [move_entity_eq_none s dst index ents he] at h
    exact Option.noConfusion h
  | some eid =>
    rw [move_entity_eq s dst index eid ents he, Option.some_inj] at h
    have hsrc : out.2.1 =
        { s with
          rows := (s.rows + (u32Mod - 1)) % u32Mod
          entities := ents
          components :=
            (moveRowsGo index s.components (dst.insert_entity eid).2.components).1 } :=
      congrArg (fun z => z.2.1) h.symm
    have hdst : out.2.2 =
        { (dst.insert_entity eid).2 with
          components :=
            (moveRowsGo index s.components (dst.insert_entity eid).2.components).2 } :=
      congrArg (fun z => z.2.2) h.symm
    rw [hsrc, hdst]
    refine ⟨?_, rfl, ?_, ?_⟩
    · exact (moveRowsGo_keys index _ _).1
    · show ((moveRowsGo index s.components (dst.insert_entity eid).2.components).2).map
        Prod.fst = dst.keys
      rw [(moveRowsGo_keys index _ _).2]
      rfl
    · rfl

end ArchetypeStorage

/-! Claim theorems. -/

/-- C1: evaluation of `move_entity` at a live row.  `srcEx` carries
component types 1 and 2 and two live rows; `dstEx` carries type 1 only.
Moving row 1 returns new row 0, yet the type-1 value is inserted into
`dstEx` at the old row index 1 — not at the returned new row 0 — and the
type-2 value (present only in the source) is left behind in the source
column at the removed row 1 instead of being dropped. -/
theorem c1_move_entity_misplaces_and_leaks :
    (ArchetypeStorage.move_entity srcEx dstEx 1).map
        (fun o => (o.1, o.2.2.get_component 1 o.1, o.2.2.get_component 1 1,
          o.2.1.get_component 2 1, o.2.1.get_component 1 1)) =
      some (0, none, some 101, some 201, none) := by decide

/-- C2 counterexample: inserting, removing the row, then inserting again
hands out row index 0 twice, because `remove` decrements the `rows`
counter that `insert_entity` reads. -/
theorem c2_row_reuse_counterexample :
    (runOps (ArchetypeStorage.empty (V := Nat) (fun t => t))
        [RowOp.insert 1, RowOp.remove 0, RowOp.insert 2]).2 = [0, 0] ∧
      ¬ ((runOps (ArchetypeStorage.empty (V := Nat) (fun t => t))
          [RowOp.insert 1, RowOp.remove 0, RowOp.insert 2]).2).Nodup := by
  constructor
  · decide
  · decide

theorem runOps_inserts {V : Type} (ids : List Nat) :
    ∀ s : ArchetypeStorage V, s.rows + ids.length ≤ u32Mod →
      (runOps s (ids.map RowOp.insert)).2 =
        (List.range ids.length).map (fun i => s.rows + i) := by
  induction ids with
  | nil => intro s h; rfl
  | cons id ids ih =>
    intro s h
    have hu : u32Mod = 4294967296 := rfl
    have step : (runOps s ((id :: ids).map RowOp.insert)).2
        = s.rows :: (runOps (s.insert_entity id).2 (ids.map RowOp.insert)).2 := rfl
    rw [step]
    simp only [List.length_cons] at h
    by_cases hm : s.rows + 1 < u32Mod
    · have hrows : (s.insert_entity id).2.rows = s.rows + 1 := Nat.mod_eq_of_lt hm
      have ihs := ih (s.insert_entity id).2 (by rw [hrows]; omega)
      rw [ihs, hrows]
      simp only [List.length_cons]
      rw [List.range_succ_eq_map, List.map_cons, List.map_map]
      simp only [Nat.add_zero]
      refine congrArg (s.rows :: ·) ?_
      apply List.map_congr_left
      intro a _
      simp only [Function.comp_apply]
      omega
    · have hlen : ids.length = 0 := by omega
      have hids : ids = [] := List.length_eq_zero.mp hlen
      subst hids
      rfl

/-- C2 (amended): a sequence of `insert_entity` calls with no intervening
`remove` (at most `2 ^ 32` of them), starting from the empty archetype,
returns pairwise-distinct row indices; with `remove` interleaved the
counterexample above shows indices are reused. -/
theorem c2_insert_rows_nodup {V : Type} (hashTy : Nat → Nat) (ids : List Nat)
    (h : ids.length ≤ u32Mod) :
    ((runOps (ArchetypeStorage.empty (V := V) hashTy) (ids.map RowOp.insert)).2).Nodup := by
  have h0 : (ArchetypeStorage.empty (V := V) hashTy).rows = 0 := rfl
  have hr := runOps_inserts (V := V) ids (ArchetypeStorage.empty hashTy)
    (by rw [h0]; omega)
  rw [hr]
  exact List.Nodup.map (fun a b hab => by omega) (List.nodup_range _)

/-- Witness for C2 (amended): three plain inserts return distinct rows. -/
theorem c2_insert_rows_nodup_witness :
    ([1, 2, 3] : List Nat).length ≤ u32Mod ∧
      ((runOps (ArchetypeStorage.empty (V := Nat) (fun t => t))
          (([1, 2, 3] : List Nat).map RowOp.insert)).2).Nodup :=
  ⟨by decide, c2_insert_rows_nodup (fun t => t) [1, 2, 3] (by decide)⟩

/-- C9 (amended): `insert_entity` returns the old value of `rows`,
records the id in the entities column at that row, leaves every component
column untouched, and increments the `u32` counter `rows` modulo
`2 ^ 32` — which is an increment by exactly 1 whenever `rows + 1` has not
reached `2 ^ 32`. -/
theorem c9_insert_entity_spec {V : Type} (s : ArchetypeStorage V) (id : Nat) :
    (s.insert_entity id).1 = s.rows ∧
      (s.insert_entity id).2.entities.get s.rows = some id ∧
      (s.insert_entity id).2.rows = (s.rows + 1) % u32Mod ∧
      (s.rows + 1 < u32Mod → (s.insert_entity id).2.rows = s.rows + 1) ∧
      (s.insert_entity id).2.components = s.components := by
  refine ⟨rfl, ?_, rfl, ?_, rfl⟩
  · exact PageTable.get_insert s.entities s.rows id
  · intro h
    exact Nat.mod_eq_of_lt h

/-- Witness for C9 (amended): on the empty archetype the counter goes
from 0 to 1. -/
theorem c9_insert_entity_spec_witness :
    (ArchetypeStorage.empty (V := Nat) (fun t => t)).rows + 1 < u32Mod ∧
      ((ArchetypeStorage.empty (V := Nat) (fun t => t)).insert_entity 9).2.rows =
        (ArchetypeStorage.empty (V := Nat) (fun t => t)).rows + 1 :=
  ⟨by decide,
    (c9_insert_entity_spec (ArchetypeStorage.empty (fun t => t)) 9).2.2.2.1 (by decide)⟩

/-- C9 counterexample: on a storage whose `u32` row counter has
underflowed to `2 ^ 32 - 1` (reached by one `remove` on the fresh empty
archetype), `insert_entity` wraps the counter to 0 instead of
incrementing it by exactly 1. -/
theorem c9_insert_entity_increment_counterexample :
    (underflowedEx.insert_entity 9).2.rows ≠ underflowedEx.rows + 1 := by decide

/-- C10: `remove` decrements the `u32` row counter unconditionally —
wrapping to `2 ^ 32 - 1` when `rows` is 0 — while the per-column removes
and the entities-column remove are no-ops on a row that is absent, so a
`remove` of a never-allocated row leaves the counter disagreeing with the
number of live entries. -/
theorem c10_remove_decrements_unconditionally {V : Type} (s : ArchetypeStorage V) (r : Nat) :
    (s.remove r).rows = (s.rows + (u32Mod - 1)) % u32Mod ∧
      (s.rows = 0 → (s.remove r).rows = u32Mod - 1) ∧
      (∀ t col, lookupKey t s.components = some col → col.get r = none →
        lookupKey t (s.remove r).components = some col) ∧
      (s.entities.get r = none → (s.remove r).entities = s.entities) ∧
      (s.rows = 0 → s.entities.get r = none → s.entities.size = 0 →
        (s.remove r).rows ≠ (s.remove r).entities.size) := by
  refine ⟨rfl, ?_, ?_, ?_, ?_⟩
  · intro h
    show (s.rows + (u32Mod - 1)) % u32Mod = u32Mod - 1
    rw [h]
    decide
  · intro t col hl hg
    show lookupKey t (mapVals (fun _ col => (PageTable.remove col r).2) s.components) =
      some col
    rw [lookupKey_mapVals, hl]
    show some (PageTable.remove col r).2 = some col
    rw [PageTable.remove_of_get_none col r hg]
  · intro hg
    show (s.entities.remove r).2 = s.entities
    rw [PageTable.remove_of_get_none s.entities r hg]
  · intro h0 hg hsz
    have h1 : (s.remove r).rows = u32Mod - 1 := by
      show (s.rows + (u32Mod - 1)) % u32Mod = u32Mod - 1
      rw [h0]
      decide
    have h2 : (s.remove r).entities = s.entities := by
      show (s.entities.remove r).2 = s.entities
      rw [PageTable.remove_of_get_none s.entities r hg]
    rw [h1, h2, hsz]
    decide

/-- Witness for C10: removing row 5 from the fresh empty archetype wraps
the counter to `2 ^ 32 - 1`, which no longer matches the (zero) number of
live entries. -/
theorem c10_remove_decrements_witness :
    ((ArchetypeStorage.empty (V := Nat) (fun t => t)).remove 5).rows = u32Mod - 1 ∧
      ((ArchetypeStorage.empty (V := Nat) (fun t => t)).remove 5).rows ≠
        ((ArchetypeStorage.empty (V := Nat) (fun t => t)).remove 5).entities.size :=
  ⟨(c10_remove_decrements_unconditionally (ArchetypeStorage.empty (fun t => t)) 5).2.1 rfl,
    (c10_remove_decrements_unconditionally (ArchetypeStorage.empty (fun t => t)) 5).2.2.2.2
      rfl rfl rfl⟩

theorem lookupKey_of_contains_false {V : Type} (s : ArchetypeStorage V) (t : Nat)
    (h : s.contains_column t = false) : lookupKey t s.components = none := by
  unfold ArchetypeStorage.contains_column containsKey at h
  cases ho : lookupKey t s.components with
  | none => rfl
  | some c => rw [ho] at h; simp at h

theorem lookupKey_of_contains_true {V : Type} (s : ArchetypeStorage V) (t : Nat)
    (h : s.contains_column t = true) : ∃ col, lookupKey t s.components = some col := by
  unfold ArchetypeStorage.contains_column containsKey at h
  cases ho : lookupKey t s.components with
  | none => rw [ho] at h; simp at h
  | some c => exact ⟨c, rfl⟩

/-- C6: on an archetype that does not carry a column for a component
type, `get_component` returns `none` for every row, and single-component
iteration (both the shared and the mutable variant) yields the empty
sequence. -/
theorem c6_missing_column_is_benign {V : Type} (s : ArchetypeStorage V) (t r : Nat)
    (h : s.contains_column t = false) :
    s.get_component t r = none ∧ s.iterColumn t = [] ∧ s.iterColumnMut t = [] := by
  have hl := lookupKey_of_contains_false s t h
  refine ⟨?_, ?_, ?_⟩
  · unfold ArchetypeStorage.get_component
    rw [hl]
    rfl
  · unfold ArchetypeStorage.iterColumn
    rw [hl]
  · unfold ArchetypeStorage.iterColumnMut
    rw [hl]

/-- Witness for C6: the empty archetype has no column for type 7. -/
theorem c6_missing_column_is_benign_witness :
    (ArchetypeStorage.empty (V := Nat) (fun t => t)).contains_column 7 = false ∧
      (ArchetypeStorage.empty (V := Nat) (fun t => t)).get_component 7 0 = none ∧
      (ArchetypeStorage.empty (V := Nat) (fun t => t)).iterColumn 7 = [] ∧
      (ArchetypeStorage.empty (V := Nat) (fun t => t)).iterColumnMut 7 = [] :=
  ⟨by decide,
    c6_missing_column_is_benign (ArchetypeStorage.empty (fun t => t)) 7 0 (by decide)⟩

/-- C7: `set_component` panics (modelled as `none`) exactly when the
archetype does not carry the column; when it does carry it, the call
succeeds and the value reads back at the given row. -/
theorem c7_set_component_spec {V : Type} (s : ArchetypeStorage V) (t id row : Nat) (v : V) :
    (s.contains_column t = false → s.set_component t id row v = none) ∧
      (s.contains_column t = true →
        ∃ s', s.set_component t id row v = some s' ∧ s'.get_component t row = some v) := by
  constructor
  · intro h
    simp [ArchetypeStorage.set_component, h]
  · intro h
    obtain ⟨col, hcol⟩ := lookupKey_of_contains_true s t h
    have hset : s.set_component t id row v = some
        { s with
          entities := s.entities.insert row id
          components := updateKey t (fun col => col.insert row v) s.components } := by
      simp [ArchetypeStorage.set_component, h]
    refine ⟨_, hset, ?_⟩
    unfold ArchetypeStorage.get_component
    show (lookupKey t (updateKey t (fun col => col.insert row v) s.components)).bind
      (fun col => col.get row) = some v
    unfold updateKey
    rw [lookupKey_mapVals, hcol]
    show ((if t = t then col.insert row v else col).get row) = some v
    rw [if_pos rfl]
    exact PageTable.get_insert col row v

/-- Witness for C7: writing value 42 of component type 1 at row 0 of
`dstEx` succeeds and reads back. -/
theorem c7_set_component_spec_witness :
    ∃ s', dstEx.set_component 1 9 0 42 = some s' ∧ s'.get_component 1 0 = some 42 :=
  (c7_set_component_spec dstEx 1 9 0 42).2 (by decide)

/-- C4: `extend_with_column` panics (modelled as `none`) precisely when
the column is already present and `reduce_with_column` precisely when it
is absent; a successful extend (reduce) yields `ty` XORed with the hash
of the type and the component-type set with the type added (removed). -/
theorem c4_extend_reduce_spec {V : Type} (hashTy : Nat → Nat) (s : ArchetypeStorage V)
    (t : Nat) (hwf : KeysWF s) :
    (s.extend_with_column hashTy t = none ↔ s.contains_column t = true) ∧
      (s.reduce_with_column hashTy t = none ↔ s.contains_column t = false) ∧
      (∀ s', s.extend_with_column hashTy t = some s' →
        s'.ty = s.ty ^^^ hashTy t ∧
          ∀ u, s'.contains_column u = true ↔ (u = t ∨ s.contains_column u = true)) ∧
      (∀ s', s.reduce_with_column hashTy t = some s' →
        s'.ty = s.ty ^^^ hashTy t ∧
          ∀ u, s'.contains_column u = true ↔ (u ≠ t ∧ s.contains_column u = true)) := by
  refine ⟨ArchetypeStorage.extend_eq_none_iff hashTy s t,
    ArchetypeStorage.reduce_eq_none_iff hashTy s t, ?_, ?_⟩
  · intro s' hs
    obtain ⟨hty, hkeys, _⟩ := ArchetypeStorage.extend_eq_some hashTy s s' t hs
    refine ⟨hty, fun u => ?_⟩
    rw [ArchetypeStorage.contains_iff_mem_keys, ArchetypeStorage.contains_iff_mem_keys,
      hkeys, List.mem_cons]
  · intro s' hs
    obtain ⟨hty, hkeys, _⟩ := ArchetypeStorage.reduce_eq_some hashTy s s' t hs
    refine ⟨hty, fun u => ?_⟩
    rw [ArchetypeStorage.contains_iff_mem_keys, ArchetypeStorage.contains_iff_mem_keys,
      hkeys]
    exact List.Nodup.mem_erase_iff hwf

/-- Witness for C4: extending `dstEx` by its existing column 1 panics. -/
theorem c4_extend_reduce_spec_witness :
    dstEx.extend_with_column (fun x => x) 1 = none :=
  (c4_extend_reduce_spec (fun x => x) dstEx 1 (by decide)).1.mpr (by decide)

theorem ty_remove {V : Type} (s : ArchetypeStorage V) (r : Nat) :
    (s.remove r).ty = s.ty := by
  unfold ArchetypeStorage.remove
  rfl

theorem extend_is_some {V : Type} (hashTy : Nat → Nat) (s : ArchetypeStorage V) (t : Nat)
    (h : s.contains_column t = false) :
    ∃ s', s.extend_with_column hashTy t = some s' := by
  cases hx : s.extend_with_column hashTy t with
  | none =>
    have := (ArchetypeStorage.extend_eq_none_iff hashTy s t).mp hx
    rw [h] at this
    cases this
  | some x => exact ⟨x, rfl⟩

/-- C5: for two distinct component types neither of which the archetype
carries, extending by the first and then the second succeeds and produces
the same `ty` hash and the same component-type set as extending in the
opposite order. -/
theorem c5_extend_commutes {V : Type} (hashTy : Nat → Nat) (s : ArchetypeStorage V)
    (a b : Nat) (hab : a ≠ b) (ha : s.contains_column a = false)
    (hb : s.contains_column b = false) :
    ∃ s1 s2 s1' s2',
      s.extend_with_column hashTy a = some s1 ∧
        s1.extend_with_column hashTy b = some s2 ∧
        s.extend_with_column hashTy b = some s1' ∧
        s1'.extend_with_column hashTy a = some s2' ∧
        s2.ty = s2'.ty ∧
        ∀ u, s2.contains_column u = true ↔ s2'.contains_column u = true := by
  obtain ⟨s1, hs1⟩ := extend_is_some hashTy s a ha
  obtain ⟨hty1, hkeys1, _⟩ := ArchetypeStorage.extend_eq_some hashTy s s1 a hs1
  have hb1 : s1.contains_column b = false := by
    rw [Bool.eq_false_iff]
    intro hbt
    rcases List.mem_cons.mp
        (hkeys1 ▸ (ArchetypeStorage.contains_iff_mem_keys s1 b).mp hbt) with h1 | h1
    · exact hab h1.symm
    · rw [(ArchetypeStorage.contains_iff_mem_keys s b).mpr h1] at hb
      cases hb
  obtain ⟨s2, hs2⟩ := extend_is_some hashTy s1 b hb1
  obtain ⟨hty2, hkeys2, _⟩ := ArchetypeStorage.extend_eq_some hashTy s1 s2 b hs2
  obtain ⟨s1', hs1'⟩ := extend_is_some hashTy s b hb
  obtain ⟨hty1', hkeys1', _⟩ := ArchetypeStorage.extend_eq_some hashTy s s1' b hs1'
  have ha1 : s1'.contains_column a = false := by
    rw [Bool.eq_false_iff]
    intro hat
    rcases List.mem_cons.mp
        (hkeys1' ▸ (ArchetypeStorage.contains_iff_mem_keys s1' a).mp hat) with h1 | h1
    · exact hab h1
    · rw [(ArchetypeStorage.contains_iff_mem_keys s a).mpr h1] at ha
      cases ha
  obtain ⟨s2', hs2'⟩ := extend_is_some hashTy s1' a ha1
  obtain ⟨hty2', hkeys2', _⟩ := ArchetypeStorage.extend_eq_some hashTy s1' s2' a hs2'
  refine ⟨s1, s2, s1', s2', hs1, hs2, hs1', hs2', ?_, ?_⟩
  · rw [hty2, hty1, hty2', hty1', Nat.xor_assoc, Nat.xor_assoc,
      Nat.xor_comm (hashTy a) (hashTy b)]
  · intro u
    rw [ArchetypeStorage.contains_iff_mem_keys, ArchetypeStorage.contains_iff_mem_keys,
      hkeys2, hkeys2', hkeys1, hkeys1']
    simp only [List.mem_cons]
    tauto

/-- Witness for C5: extending `dstEx` (which carries only type 1) by the
fresh types 5 and 6 in either order. -/
theorem c5_extend_commutes_witness :
    ∃ s1 s2 s1' s2',
      dstEx.extend_with_column (fun x => x) 5 = some s1 ∧
        s1.extend_with_column (fun x => x) 6 = some s2 ∧
        dstEx.extend_with_column (fun x => x) 6 = some s1' ∧
        s1'.extend_with_column (fun x => x) 5 = some s2' ∧
        s2.ty = s2'.ty ∧
        ∀ u, s2.contains_column u = true ↔ s2'.contains_column u = true :=
  c5_extend_commutes (fun x => x) dstEx 5 6 (by decide) (by decide) (by decide)

/-- C3: every archetype storage reachable from `ArchetypeStorage::empty`
through the public operations satisfies the hash-identity invariant I2:
its `ty` equals the XOR of the per-type hashes of its component-type
keys. -/
theorem c3_hash_identity {V : Type} (hashTy : Nat → Nat) (s : ArchetypeStorage V)
    (h : Reachable V hashTy s) : s.ty = xorHashes hashTy s.keys := by
  induction h with
  | empty =>
    show hashTy unitTypeId = xorHashes hashTy [unitTypeId]
    simp [xorHashes]
  | extend hr he ih =>
    obtain ⟨hty, hkeys, _⟩ := ArchetypeStorage.extend_eq_some _ _ _ _ he
    rw [hty, hkeys]
    unfold xorHashes
    rw [ih, Nat.xor_comm]
  | reduce hr he ih =>
    obtain ⟨hty, hkeys, hc⟩ := ArchetypeStorage.reduce_eq_some _ _ _ _ he
    rw [hty, hkeys,
      xorHashes_erase hashTy _ _ ((ArchetypeStorage.contains_iff_mem_keys _ _).mp hc), ih]
  | cloneEmpty hr ih =>
    rw [ArchetypeStorage.keys_clone_empty]
    exact ih
  | insertEnt hr ih =>
    rw [ArchetypeStorage.keys_insert_entity]
    exact ih
  | setComp hr he ih =>
    obtain ⟨hkeys, hty⟩ := ArchetypeStorage.set_component_eq_some _ _ _ _ _ _ he
    rw [hty, hkeys]
    exact ih
  | removeRow hr ih =>
    rw [ArchetypeStorage.keys_remove, ty_remove]
    exact ih
  | moveSrc hrs hrd he ihs ihd =>
    obtain ⟨hk, hty, _, _⟩ := ArchetypeStorage.move_entity_keys_ty _ _ _ _ he
    rw [hty, hk]
    exact ihs
  | moveDst hrs hrd he ihs ihd =>
    obtain ⟨_, _, hk, hty⟩ := ArchetypeStorage.move_entity_keys_ty _ _ _ _ he
    rw [hty, hk]
    exact ihd

/-- Witness for C3: the invariant at the reachable storage produced by
`ArchetypeStorage::empty` itself. -/
theorem c3_hash_identity_witness :
    (ArchetypeStorage.empty (V := Nat) (fun t => t + 1)).ty =
      xorHashes (fun t => t + 1) (ArchetypeStorage.empty (V := Nat) (fun t => t + 1)).keys :=
  c3_hash_identity (fun t => t + 1) (ArchetypeStorage.empty (fun t => t + 1))
    Reachable.empty

/-! Helper lemmas on the access-set model. -/

theorem mem_insertType (x t : Nat) (s : List Nat) :
    x ∈ insertType s t ↔ x = t ∨ x ∈ s := by
  unfold insertType
  by_cases h : t ∈ s
  · rw [if_pos h]
    constructor
    · exact Or.inr
    · rintro (rfl | hx)
      · exact h
      · exact hx
  · rw [if_neg h]
    exact List.mem_cons

theorem mem_foldl_insertType (l : List Nat) :
    ∀ s x, x ∈ l.foldl insertType s ↔ x ∈ s ∨ x ∈ l := by
  induction l with
  | nil => simp
  | cons t ts ih =>
    intro s x
    simp only [List.foldl_cons]
    rw [ih, mem_insertType, List.mem_cons]
    tauto

theorem mem_extendSet (a b : List Nat) (x : Nat) :
    x ∈ extendSet a b ↔ x ∈ a ∨ x ∈ b :=
  mem_foldl_insertType b a x

theorem typesMutGo_some_mem (ws : List Nat) :
    ∀ s out, typesMutGo ws s = some out → ∀ x, (x ∈ out ↔ x ∈ ws ∨ x ∈ s) := by
  induction ws with
  | nil =>
    intro s out h x
    cases h
    simp
  | cons t ts ih =>
    intro s out h x
    unfold typesMutGo at h
    by_cases hm : t ∈ s
    · rw [if_pos hm] at h
      cases h
    · rw [if_neg hm] at h
      rw [ih _ _ h, List.mem_cons, List.mem_cons]
      tauto

theorem typesMutGo_dup_none (ws : List Nat) :
    ∀ s w, w ∈ ws → w ∈ s → typesMutGo ws s = none := by
  induction ws with
  | nil =>
    intro s w h
    cases h
  | cons t ts ih =>
    intro s w hw hs
    unfold typesMutGo
    by_cases hm : t ∈ s
    · rw [if_pos hm]
    · rw [if_neg hm]
      rcases List.mem_cons.mp hw with rfl | hw'
      · exact absurd hs hm
      · exact ih _ w hw' (List.mem_cons_of_mem t hs)

theorem mapTypesMut_some (s : List Nat) (qs : List QueryAccess)
    (h : ∀ q ∈ qs, (typesMut q s).isSome = true) :
    ∃ isos, mapTypesMut s qs = some isos ∧
      (∀ iso ∈ isos, ∃ q ∈ qs, typesMut q s = some iso) ∧
      (∀ q ∈ qs, ∃ iso ∈ isos, typesMut q s = some iso) := by
  induction qs with
  | nil => exact ⟨[], rfl, by simp, by simp⟩
  | cons q qs ih =>
    have hq := h q (List.mem_cons_self q qs)
    obtain ⟨iso, hiso⟩ := Option.isSome_iff_exists.mp hq
    obtain ⟨isos, h1, h2, h3⟩ := ih (fun q hq => h q (List.mem_cons_of_mem _ hq))
    refine ⟨iso :: isos, ?_, ?_, ?_⟩
    · unfold mapTypesMut
      rw [hiso, h1]
    · intro i hi
      rcases List.mem_cons.mp hi with rfl | hi'
      · exact ⟨q, List.mem_cons_self q qs, hiso⟩
      · obtain ⟨q', hq', h'⟩ := h2 i hi'
        exact ⟨q', List.mem_cons_of_mem _ hq', h'⟩
    · intro q' hq'
      rcases List.mem_cons.mp hq' with rfl | hq''
      · exact ⟨iso, List.mem_cons_self _ _, hiso⟩
      · obtain ⟨i, hi, h'⟩ := h3 q' hq''
        exact ⟨i, List.mem_cons_of_mem _ hi, h'⟩

theorem mem_foldl_extendSet (isos : List (List Nat)) :
    ∀ init x, x ∈ isos.foldl extendSet init ↔ x ∈ init ∨ ∃ iso ∈ isos, x ∈ iso := by
  induction isos with
  | nil => simp
  | cons i is ih =>
    intro init x
    simp only [List.foldl_cons]
    rw [ih, mem_extendSet]
    constructor
    · rintro ((hx | hx) | ⟨iso, hiso, hx⟩)
      · exact Or.inl hx
      · exact Or.inr ⟨i, List.mem_cons_self _ _, hx⟩
      · exact Or.inr ⟨iso, List.mem_cons_of_mem _ hiso, hx⟩
    · rintro (hx | ⟨iso, hiso, hx⟩)
      · exact Or.inl (Or.inl hx)
      · rcases List.mem_cons.mp hiso with rfl | h'
        · exact Or.inl (Or.inr hx)
        · exact Or.inr ⟨iso, h', hx⟩

theorem mem_typesConst (q : QueryAccess) (s : List Nat) (x : Nat) :
    x ∈ typesConst q s ↔ x ∈ s ∨ x ∈ q.reads :=
  mem_foldl_insertType q.reads s x

theorem mem_querySetComponentsConst (qs : List QueryAccess) :
    ∀ s x, x ∈ querySetComponentsConst qs s ↔ x ∈ s ∨ ∃ q ∈ qs, x ∈ q.reads := by
  induction qs with
  | nil => simp [querySetComponentsConst]
  | cons q qs ih =>
    intro s x
    show x ∈ querySetComponentsConst qs (typesConst q s) ↔ _
    rw [ih, mem_typesConst]
    constructor
    · rintro ((hx | hx) | ⟨q', hq', hx⟩)
      · exact Or.inl hx
      · exact Or.inr ⟨q, List.mem_cons_self _ _, hx⟩
      · exact Or.inr ⟨q', List.mem_cons_of_mem _ hq', hx⟩
    · rintro (hx | ⟨q', hq', hx⟩)
      · exact Or.inl (Or.inl hx)
      · rcases List.mem_cons.mp hq' with rfl | h'
        · exact Or.inl (Or.inr hx)
        · exact Or.inr ⟨q', h', hx⟩

/-- C8: when every inner query of a `QuerySet` validates in isolation
against the incoming set, the reported write set is the union of the
inner queries' isolated `types_mut` results (so a write type shared by
two inner queries does not panic), the reported read set is the union of
the inner queries' `types_const` results, and sequential (non-`QuerySet`)
accumulation of two queries sharing a write type does panic. -/
theorem c8_query_set_access (qs : List QueryAccess) (s : List Nat)
    (h : ∀ q ∈ qs, (typesMut q s).isSome = true) :
    (∃ out, querySetComponentsMut qs s = some out ∧
        ∀ x, (x ∈ out ↔ x ∈ s ∨ ∃ q ∈ qs, ∃ iso, typesMut q s = some iso ∧ x ∈ iso)) ∧
      (∀ x, (x ∈ querySetComponentsConst qs s ↔ x ∈ s ∨ ∃ q ∈ qs, x ∈ q.reads)) ∧
      (∀ q1 q2 s1 w, q1 ∈ qs → q2 ∈ qs → w ∈ q1.writes → w ∈ q2.writes →
        typesMut q1 s = some s1 → typesMut q2 s1 = none) := by
  refine ⟨?_, fun x => mem_querySetComponentsConst qs s x, ?_⟩
  · obtain ⟨isos, h1, h2, h3⟩ := mapTypesMut_some s qs h
    refine ⟨isos.foldl extendSet s, ?_, fun x => ?_⟩
    · unfold querySetComponentsMut
      rw [h1]
      rfl
    · rw [mem_foldl_extendSet]
      constructor
      · rintro (hx | ⟨iso, hiso, hx⟩)
        · exact Or.inl hx
        · obtain ⟨q, hq, hq'⟩ := h2 iso hiso
          exact Or.inr ⟨q, hq, iso, hq', hx⟩
      · rintro (hx | ⟨q, hq, iso, hiso, hx⟩)
        · exact Or.inl hx
        · obtain ⟨iso', hiso', h'⟩ := h3 q hq
          have heq : iso' = iso := Option.some_inj.mp (h'.symm.trans hiso)
          subst heq
          exact Or.inr ⟨iso', hiso', hx⟩
  · intro q1 q2 s1 w hq1 hq2 hw1 hw2 hm1
    have hw : w ∈ s1 := ((typesMutGo_some_mem q1.writes s s1 hm1) w).mpr (Or.inl hw1)
    exact typesMutGo_dup_none q2.writes s1 w hw2 hw

/-- Witness for C8: two inner queries both writing component type 5
validate in isolation, so the query set builds and reports their union. -/
theorem c8_query_set_access_witness :
    (∀ q ∈ qsEx, (typesMut q ([] : List Nat)).isSome = true) ∧
      ∃ out, querySetComponentsMut qsEx [] = some out ∧
        ∀ x, (x ∈ out ↔ x ∈ ([] : List Nat) ∨
          ∃ q ∈ qsEx, ∃ iso, typesMut q [] = some iso ∧ x ∈ iso) :=
  ⟨by decide, (c8_query_set_access qsEx [] (by decide)).1⟩
